import Mathlib

/-!
Shallow embedding of the caching layer and the category-resolution walk of
the wiki-utils repository (src/wiki_utils/cache.py, src/cache.py,
src/utils.py, src/wiki_properties.py).

Python dicts are modelled as insertion-ordered association lists with unique
keys (`dget` models `d.get(k)`, `dset` models `d[k] = v`, `dupdate` models
`d.update(other)`).  The two-level cache `self._cache`, a
`collections.defaultdict(dict)` mapping tag -> (key -> value), is modelled by
`CacheState`; the defaultdict auto-creation performed by `self._cache[tag]`
is modelled by `ddAccess`, which returns the sub-mapping together with the
possibly extended state.  Stateful methods are explicit state-passing
functions.  The fuel-indexed `get_super_class_from` models the while loop of
`WikiClient.get_super_class_from`; a result of `none` means the loop has not
finished within the given number of iterations, `some r` means the loop
finished with Python result `r` (`some q` a QID, `none` Python's `None`).
-/

set_option maxRecDepth 4000

namespace WikiUtils

/-- Property identifier "instance of" from src/wiki_properties.py. -/
def INSTANCE_OF : String := "P31"

/-- Property identifier "subclass of" from src/wiki_properties.py. -/
def SUBCLASS_OF : String := "P279"

/-- Python `d.get(x)` on an insertion-ordered dict modelled as an association
list: the first binding of `x` wins. -/
def dget {ν : Type} : List (String × ν) → String → Option ν
  | [], _ => none
  | (k, v) :: rest, x => if k = x then some v else dget rest x

/-- Python `d[k] = v`: replace the binding in place if `k` is present,
otherwise append the new binding at the end (insertion order). -/
def dset {ν : Type} : List (String × ν) → String → ν → List (String × ν)
  | [], k, v => [(k, v)]
  | (k0, v0) :: rest, k, v =>
      if k0 = k then (k0, v) :: rest else (k0, v0) :: dset rest k v

/-- First-some choice on options, used to state lookup lemmas. -/
def oget {α : Type} : Option α → Option α → Option α
  | some a, _ => some a
  | none, b => b

/-- Python `d.update(incoming)`: set every binding of `incoming` in order. -/
def dupdate {ν : Type} (d incoming : List (String × ν)) : List (String × ν) :=
  incoming.foldl (fun acc kv => dset acc kv.1 kv.2) d

/-- The two-level cache `self._cache : tag -> (key -> value)`. -/
abbrev CacheState (ν : Type) := List (String × List (String × ν))

/-- Two-level lookup: the value stored at `(tag, key)`, `none` when the tag
or the key is absent. -/
def dget2 {ν : Type} (c : CacheState ν) (tag key : String) : Option ν :=
  match dget c tag with
  | none => none
  | some m => dget m key

/-- Model of reading `self._cache[tag]` on a `collections.defaultdict`:
returns the stored entry when present, otherwise inserts the default at the
end and returns it.  The second component is the state after the access. -/
def ddAccess {α : Type} : List (String × α) → String → α → α × List (String × α)
  | [], t, dflt => (dflt, [(t, dflt)])
  | (t0, m) :: rest, t, dflt =>
      if t0 = t then (m, (t0, m) :: rest)
      else ((ddAccess rest t dflt).1, (t0, m) :: (ddAccess rest t dflt).2)

/-- Model of `Cached._cache_get`: `self._cache[tag].get(key, None)`.  The
defaultdict access may extend the state, which is returned alongside the
looked-up value. -/
def cache_get {ν : Type} (c : CacheState ν) (tag key : String) :
    Option ν × CacheState ν :=
  (dget (ddAccess c tag []).1 key, (ddAccess c tag []).2)

/-- Model of `Cached._cache_put`: `self._cache[tag][key] = value`. -/
def cache_put {ν : Type} (c : CacheState ν) (tag key : String) (v : ν) :
    CacheState ν :=
  dset (ddAccess c tag []).2 tag (dset (ddAccess c tag []).1 key v)

/-- Model of `Cached.update_cache(cache_dict, tag=None)` in
src/wiki_utils/cache.py: `for tag in self._cache.keys():
self._cache[tag].update(cache_dict.get(tag, {}))` — only tags already
present in memory are visited. -/
def update_cache_noTag {ν : Type} (c incoming : CacheState ν) : CacheState ν :=
  c.map fun tm => (tm.1, dupdate tm.2 ((dget incoming tm.1).getD []))

/-- Model of `Cached.update_cache(cache_dict, tag=None)` in the earlier
src/cache.py revision: `self._cache.update(cache_dict)` — whole sub-mappings
of incoming tags replace the existing ones. -/
def update_cache_v0 {ν : Type} (c incoming : CacheState ν) : CacheState ν :=
  dupdate c incoming

/-- The Python value passed for the `tags` parameter of
`save_cache_to_file` / `get_caches`: `None`, a single string (as the
constructor passes its `tag` argument there), or a collection of strings. -/
inductive TagsArg where
  | noneArg : TagsArg
  | ofString : String → TagsArg
  | ofList : List String → TagsArg

/-- Model of `tags = tags or self._cache.keys()`: `None`, the empty string
and the empty list are falsy and yield the current keys; iterating a string
yields its one-character substrings. -/
def resolveTags {ν : Type} (c : CacheState ν) : TagsArg → List String
  | TagsArg.noneArg => c.map Prod.fst
  | TagsArg.ofString s =>
      if s = "" then c.map Prod.fst else s.toList.map Char.toString
  | TagsArg.ofList l => if l = [] then c.map Prod.fst else l

/-- The dict comprehension `{tag: self._cache[tag] for tag in tags}` of
`Cached.get_caches`, with the defaultdict auto-creation of missing tags:
folds over the requested tags, accumulating the result dict and threading
the (possibly growing) cache state. -/
def get_caches_go {ν : Type} :
    List String → CacheState ν → CacheState ν → CacheState ν × CacheState ν
  | [], acc, st => (acc, st)
  | t :: ts, acc, st =>
      get_caches_go ts (dset acc t (ddAccess st t []).1) (ddAccess st t []).2

/-- Model of `Cached.get_caches(tags)`: the returned tag -> sub-mapping dict
together with the cache state after the call. -/
def get_caches {ν : Type} (c : CacheState ν) (targ : TagsArg) :
    CacheState ν × CacheState ν :=
  get_caches_go (resolveTags c targ) [] c

/-- Model of `Cached.get_summary`: entry count per tag. -/
def get_summary {ν : Type} (c : CacheState ν) : List (String × Nat) :=
  c.map fun tm => (tm.1, tm.2.length)

/-- Model of `Cached.sync_with_file(tag=None)` with `tag = None`: under the
file lock, merge the file into memory (`update_cache_from_file`) and then
write `get_caches(None)` of the merged memory back
(`save_cache_to_file`).  Input: in-memory state and on-disk structure;
output: memory afterwards and the structure written to disk. -/
def sync_with_file {ν : Type} (mem file : CacheState ν) :
    CacheState ν × CacheState ν :=
  ((get_caches (update_cache_noTag mem file) TagsArg.noneArg).2,
   (get_caches (update_cache_noTag mem file) TagsArg.noneArg).1)

/-- Structure written at construction time when the cache file does not
exist: `save_cache_to_file(cache_filepath, tag)` on the freshly created
empty cache, i.e. `get_caches(tag)` of the empty state. -/
def construction_write {ν : Type} (targ : TagsArg) : CacheState ν :=
  (get_caches ([] : CacheState ν) targ).1

/-- State of a memoized method: the cache (values are Python values that may
be `None`, modelled as `Option β`) and the number of invocations of the
wrapped operation so far. -/
structure MemoState (β : Type) where
  cache : CacheState (Option β)
  calls : Nat

/-- Model of one call of the `decorated_method` produced by `cached_method`:
look the key up, invoke the operation exactly when the looked-up value is
Python `None`, always re-store the result, return it.  The operation is
modelled by its return value `op` (the mock of the spec returns a fixed
value); `calls` counts its invocations. -/
def decorated_method {β : Type} (tag key : String) (op : Option β)
    (s : MemoState β) : Option β × MemoState β :=
  match (cache_get s.cache tag key).1.getD none with
  | some v =>
      (some v, MemoState.mk (cache_put (cache_get s.cache tag key).2 tag key (some v)) s.calls)
  | none =>
      (op, MemoState.mk (cache_put (cache_get s.cache tag key).2 tag key op) (s.calls + 1))

/-- An argument value occurring in a cached call of this client: a Python
string, or the 2-tuple `(name, value)` contributed by a keyword argument
with a string value. -/
inductive PyArg where
  | str : String → PyArg
  | pair : String → String → PyArg

/-- Python `repr` of an argument value as rendered inside a tuple (string
values of these call sites contain no characters needing escaping). -/
def pyArgRepr : PyArg → String
  | PyArg.str s => "'" ++ s ++ "'"
  | PyArg.pair k v => "('" ++ k ++ "', '" ++ v ++ "')"

/-- Python `str` of an argument value standing alone: a string renders as
itself, a tuple via its repr. -/
def pyArgStr : PyArg → String
  | PyArg.str s => s
  | PyArg.pair k v => "('" ++ k ++ "', '" ++ v ++ "')"

/-- Comma-separated reprs of the elements of a tuple. -/
def pyReprJoin : List PyArg → String
  | [] => ""
  | [a] => pyArgRepr a
  | a :: rest => pyArgRepr a ++ ", " ++ pyReprJoin rest

/-- Python `str` of an argument tuple, with the trailing comma of
one-element tuples. -/
def pyTupleStr (l : List PyArg) : String :=
  "(" ++ pyReprJoin l ++ (if l.length = 1 then ",)" else ")")

/-- Model of `str(key_fn(args + tuple(kwargs.items())))` with the default
key function `_DEFAULT_KEY_FN(args) = args[0] if len(args) == 1 else args`,
applied to the combined tuple of positional arguments followed by keyword
items. -/
def compute_key : List PyArg → String
  | [a] => pyArgStr a
  | l => pyTupleStr l

/-- Model of the while loop of `WikiClient.get_super_class_from`, indexed by
the number of loop iterations still allowed: `some r` means the loop has
finished with Python result `r`, `none` that it is still running after the
allowed iterations.  `props q p` models `self.get_entity_prop(q, p)`. -/
def get_super_class_from (props : String → String → List String)
    (cand : List String) : Nat → List String → Option (Option String)
  | _, [] => some none
  | 0, _ :: _ => none
  | n + 1, q :: rest =>
      if q ∈ cand then some (some q)
      else get_super_class_from props cand n (rest ++ props q SUBCLASS_OF)

/-- Model of `WikiClient.get_entity_category`: seed the frontier with the
entity's "instance of" targets and run the walk. -/
def get_entity_category (props : String → String → List String)
    (cand : List String) (fuel : Nat) (qid : String) : Option (Option String) :=
  get_super_class_from props cand fuel (props qid INSTANCE_OF)

/-- Relation graph of the spec's terminal-category walk example:
Q1 --instance_of--> Q2, Q2 --subclass_of--> Q3, Q3 --subclass_of--> Q5. -/
def chainProps : String → String → List String := fun q p =>
  if p = INSTANCE_OF then (if q = "Q1" then ["Q2"] else [])
  else if p = SUBCLASS_OF then
    (if q = "Q2" then ["Q3"] else if q = "Q3" then ["Q5"] else [])
  else []

/-- Relation graph of the spec's cycle-safety example:
Qa --subclass_of--> Qb --subclass_of--> Qa. -/
def cycProps : String → String → List String := fun q p =>
  if p = SUBCLASS_OF then
    (if q = "Qa" then ["Qb"] else if q = "Qb" then ["Qa"] else [])
  else []

/-- The category-resolution walk from Qa over the cyclic graph terminates
within some number of loop iterations. -/
def cycTerminates : Prop :=
  ∃ n : Nat, (get_super_class_from cycProps ["Q5"] n ["Qa"]).isSome = true

/-- Lookup after a single dict write: the written key reads back the new
value, every other key is unchanged. -/
theorem dget_dset {ν : Type} (d : List (String × ν)) (k : String) (v : ν)
    (x : String) : dget (dset d k v) x = if k = x then some v else dget d x := by
  induction d with
  | nil => simp only [dset, dget]
  | cons hd tl ih =>
      obtain ⟨k0, v0⟩ := hd
      by_cases h0 : k0 = k
      · subst h0
        by_cases hx : k0 = x
        · subst hx; simp [dset, dget]
        · simp [dset, dget, hx]
      · by_cases hx : k0 = x
        · subst hx
          simp [dset, dget, h0, Ne.symm h0]
        · simp [dset, dget, h0, hx, ih]

/-- Defaultdict access of a present tag returns the stored sub-mapping and
leaves the state unchanged. -/
theorem ddAccess_of_some {α : Type} (c : List (String × α)) (t : String)
    (d m : α) (h : dget c t = some m) : ddAccess c t d = (m, c) := by
  induction c with
  | nil => simp [dget] at h
  | cons hd tl ih =>
      obtain ⟨t0, m0⟩ := hd
      by_cases h0 : t0 = t
      · subst h0
        simp [dget] at h
        simp [ddAccess, h]
      · simp [dget, h0] at h
        simp [ddAccess, h0, ih h]

/-- Defaultdict access of a missing tag returns the default and appends the
new binding at the end of the state. -/
theorem ddAccess_of_none {α : Type} (c : List (String × α)) (t : String)
    (d : α) (h : dget c t = none) : ddAccess c t d = (d, c ++ [(t, d)]) := by
  induction c with
  | nil => simp [ddAccess]
  | cons hd tl ih =>
      obtain ⟨t0, m0⟩ := hd
      by_cases h0 : t0 = t
      · subst h0; simp [dget] at h
      · simp [dget, h0] at h
        simp [ddAccess, h0, ih h]

/-- The sub-mapping returned by a defaultdict access is the stored one, or
the default when the tag is missing. -/
theorem ddAccess_fst {α : Type} (c : List (String × α)) (t : String) (d : α) :
    (ddAccess c t d).1 = (dget c t).getD d := by
  cases h : dget c t with
  | none => simp [ddAccess_of_none c t d h]
  | some m => simp [ddAccess_of_some c t d m h]

/-- Reading back a value just stored by `_cache_put` at the same tag and key
yields that value. -/
theorem cache_get_put {ν : Type} (c : CacheState ν) (tag key : String)
    (v : ν) : (cache_get (cache_put c tag key v) tag key).1 = some v := by
  simp [cache_get, cache_put, ddAccess_fst, dget_dset]

/-- Lookup distributes over list append, earlier bindings winning. -/
theorem dget_append {ν : Type} (xs ys : List (String × ν)) (x : String) :
    dget (xs ++ ys) x = oget (dget xs x) (dget ys x) := by
  induction xs with
  | nil => simp [dget, oget]
  | cons hd tl ih =>
      obtain ⟨k0, v0⟩ := hd
      by_cases h0 : k0 = x <;> simp [dget, h0, oget, ih]

/-- Lookup after `d.update(incoming)`: the last binding of the key in
`incoming` wins, otherwise the old value survives. -/
theorem dget_dupdate {ν : Type} (incoming d : List (String × ν)) (x : String) :
    dget (dupdate d incoming) x = oget (dget incoming.reverse x) (dget d x) := by
  induction incoming generalizing d with
  | nil => simp [dupdate, dget, oget]
  | cons hd tl ih =>
      obtain ⟨a, v⟩ := hd
      have step : dupdate d ((a, v) :: tl) = dupdate (dset d a v) tl := rfl
      rw [step, ih, List.reverse_cons, dget_append, dget_dset]
      cases hR : dget tl.reverse x with
      | some r => simp [oget]
      | none => by_cases hax : a = x <;> simp [oget, dget, hax]

/-- Lookup of a tag after the no-tag `update_cache`: present tags get their
sub-mapping updated from the incoming structure, missing tags stay
missing. -/
theorem dget_update_noTag {ν : Type} (c incoming : CacheState ν) (t : String) :
    dget (update_cache_noTag c incoming) t
      = (dget c t).map fun m => dupdate m ((dget incoming t).getD []) := by
  induction c with
  | nil => simp [update_cache_noTag, dget]
  | cons hd tl ih =>
      obtain ⟨t0, m0⟩ := hd
      by_cases h0 : t0 = t
      · subst h0
        simp [update_cache_noTag, dget]
      · simp only [update_cache_noTag, List.map_cons, dget, h0, if_false] at ih ⊢
        exact ih

/-- A tag listed among the keys has a stored sub-mapping. -/
theorem dget_isSome_of_mem_keys {ν : Type} (c : List (String × ν))
    (x : String) (h : x ∈ c.map Prod.fst) : (dget c x).isSome = true := by
  induction c with
  | nil => simp at h
  | cons hd tl ih =>
      obtain ⟨t0, m0⟩ := hd
      rw [List.map_cons] at h
      rcases List.mem_cons.mp h with h | h
      · subst h
        simp [dget]
      · by_cases h0 : t0 = x
        · simp [dget, h0]
        · simp only [dget, h0, if_false]
          exact ih h

/-- A tag not listed among the keys has no stored sub-mapping. -/
theorem dget_eq_none_of_not_mem {ν : Type} (c : List (String × ν))
    (x : String) (h : x ∉ c.map Prod.fst) : dget c x = none := by
  induction c with
  | nil => rfl
  | cons hd tl ih =>
      obtain ⟨t0, m0⟩ := hd
      rw [List.map_cons] at h
      have h1 : t0 ≠ x := by
        intro hh; exact h (by rw [hh]; exact List.mem_cons_self _ _)
      have h2 : x ∉ tl.map Prod.fst := fun hh => h (List.mem_cons_of_mem _ hh)
      simp [dget, h1]
      exact ih h2

/-- A successful lookup exhibits a member of the association list. -/
theorem dget_mem {ν : Type} (c : List (String × ν)) (x : String) (m : ν)
    (h : dget c x = some m) : (x, m) ∈ c := by
  induction c with
  | nil => simp [dget] at h
  | cons hd tl ih =>
      obtain ⟨t0, m0⟩ := hd
      by_cases h0 : t0 = x
      · subst h0
        simp [dget] at h
        subst h
        exact List.mem_cons_self _ _
      · simp [dget, h0] at h
        exact List.mem_cons_of_mem _ (ih h)

/-- Membership after a dict write: the element was already present or is the
written binding. -/
theorem mem_dset {ν : Type} (d : List (String × ν)) (k : String) (v : ν)
    (p : String × ν) (h : p ∈ dset d k v) : p ∈ d ∨ p = (k, v) := by
  induction d with
  | nil =>
      simp [dset] at h
      exact Or.inr h
  | cons hd tl ih =>
      obtain ⟨k0, v0⟩ := hd
      by_cases h0 : k0 = k
      · subst h0
        simp [dset] at h
        rcases h with h | h
        · exact Or.inr (by simp [h])
        · exact Or.inl (List.mem_cons_of_mem _ h)
      · simp only [dset, h0, if_false, List.mem_cons] at h
        rcases h with h | h
        · exact Or.inl (by simp [h])
        · rcases ih h with h2 | h2
          · exact Or.inl (List.mem_cons_of_mem _ h2)
          · exact Or.inr h2

/-- The `get_caches` fold, when every requested tag is present: the state is
unchanged and the result dict holds exactly the requested sub-mappings. -/
theorem get_caches_go_spec {ν : Type} (ts : List String) :
    ∀ (acc st : CacheState ν),
      (∀ t ∈ ts, (dget st t).isSome = true) →
      (get_caches_go ts acc st).2 = st ∧
      ∀ x, dget (get_caches_go ts acc st).1 x
            = if x ∈ ts then dget st x else dget acc x := by
  induction ts with
  | nil =>
      intro acc st _
      exact ⟨rfl, fun x => by simp [get_caches_go]⟩
  | cons t ts ih =>
      intro acc st h
      have hs : (dget st t).isSome = true := h t (List.mem_cons_self t ts)
      obtain ⟨m, hm⟩ := Option.isSome_iff_exists.mp hs
      simp only [get_caches_go, ddAccess_of_some st t [] m hm]
      have hrec := ih (dset acc t m) st (fun u hu => h u (List.mem_cons_of_mem t hu))
      refine ⟨hrec.1, ?_⟩
      intro x
      rw [hrec.2 x, dget_dset]
      by_cases hx : x ∈ ts
      · simp [hx]
      · by_cases hxt : t = x
        · subst hxt
          simp [hx, hm]
        · have hne : ¬x = t := fun h => hxt h.symm
          simp [hx, hne]
          exact fun h => absurd h hxt

/-- `get_caches` with the `None` tags argument copies the cache: it does not
change the state, and the returned dict agrees with the state at every
tag. -/
theorem get_caches_none_spec {ν : Type} (c : CacheState ν) :
    (get_caches c TagsArg.noneArg).2 = c ∧
    ∀ x, dget (get_caches c TagsArg.noneArg).1 x = dget c x := by
  have h := get_caches_go_spec (c.map Prod.fst) [] c
      (fun t ht => dget_isSome_of_mem_keys c t ht)
  refine ⟨h.1, ?_⟩
  intro x
  rw [show get_caches c TagsArg.noneArg
        = get_caches_go (c.map Prod.fst) [] c from rfl]
  rw [h.2 x]
  by_cases hx : x ∈ c.map Prod.fst
  · simp [hx]
  · simp only [hx, if_false, dget]
    exact (dget_eq_none_of_not_mem c x hx).symm

/-- The `get_caches` fold started from a state and an accumulator whose
sub-mappings are all empty produces a dict whose sub-mappings are all
empty. -/
theorem get_caches_go_allEmpty {ν : Type} (ts : List String) :
    ∀ (acc st : CacheState ν),
      (∀ p ∈ st, p.2 = []) → (∀ p ∈ acc, p.2 = []) →
      ∀ p ∈ (get_caches_go ts acc st).1, p.2 = [] := by
  induction ts with
  | nil => intro acc st _ hacc; exact hacc
  | cons t ts ih =>
      intro acc st hst hacc
      simp only [get_caches_go]
      apply ih
      · cases h : dget st t with
        | some m =>
            rw [ddAccess_of_some st t [] m h]
            exact hst
        | none =>
            rw [ddAccess_of_none st t [] h]
            intro p hp
            rcases List.mem_append.mp hp with hp | hp
            · exact hst p hp
            · simp at hp; simp [hp]
      · intro p hp
        rcases mem_dset acc t (ddAccess st t []).1 p hp with h2 | h2
        · exact hacc p h2
        · rw [h2]
          show (ddAccess st t []).1 = []
          cases h : dget st t with
          | some m =>
              rw [ddAccess_of_some st t [] m h]
              exact hst (t, m) (dget_mem st t m h)
          | none => rw [ddAccess_of_none st t [] h]

/-- A cache hit: the memoized call returns the stored value, re-stores it
and does not touch the invocation counter. -/
theorem dm_hit {β : Type} (tag key : String) (op : Option β) (s : MemoState β)
    (v : β) (h : (cache_get s.cache tag key).1.getD none = some v) :
    decorated_method tag key op s
      = (some v,
         MemoState.mk (cache_put (cache_get s.cache tag key).2 tag key (some v))
           s.calls) := by
  unfold decorated_method
  rw [h]

/-- A cache miss (absent key or stored Python `None`): the memoized call
invokes the operation, stores and returns its result. -/
theorem dm_miss {β : Type} (tag key : String) (op : Option β) (s : MemoState β)
    (h : (cache_get s.cache tag key).1.getD none = none) :
    decorated_method tag key op s
      = (op,
         MemoState.mk (cache_put (cache_get s.cache tag key).2 tag key op)
           (s.calls + 1)) := by
  unfold decorated_method
  rw [h]

/-- After any memoized call, the cache slot of its key holds exactly the
value the call returned. -/
theorem dm_stores {β : Type} (tag key : String) (op : Option β)
    (s : MemoState β) :
    (cache_get (decorated_method tag key op s).2.cache tag key).1
      = some ((decorated_method tag key op s).1) := by
  cases h : (cache_get s.cache tag key).1.getD none with
  | some v =>
      rw [dm_hit tag key op s v h]
      exact cache_get_put _ tag key (some v)
  | none =>
      rw [dm_miss tag key op s h]
      exact cache_get_put _ tag key op

/-- The walk over the two-element subclass cycle alternates between the two
one-element frontiers and never finishes, whatever the iteration bound. -/
theorem cyc_stuck : ∀ n : Nat,
    get_super_class_from cycProps ["Q5"] n ["Qa"] = none ∧
    get_super_class_from cycProps ["Q5"] n ["Qb"] = none := by
  intro n
  induction n with
  | zero => exact ⟨rfl, rfl⟩
  | succ n ih =>
      constructor
      · have h1 : get_super_class_from cycProps ["Q5"] (n + 1) ["Qa"]
            = get_super_class_from cycProps ["Q5"] n ["Qb"] := by
          simp [get_super_class_from, cycProps, SUBCLASS_OF]
        rw [h1]; exact ih.2
      · have h2 : get_super_class_from cycProps ["Q5"] (n + 1) ["Qb"]
            = get_super_class_from cycProps ["Q5"] n ["Qa"] := by
          simp [get_super_class_from, cycProps, SUBCLASS_OF]
        rw [h2]; exact ih.1

/-- C1 counterexample: merging the input `{"entity_info": {"Q1": "a"}}` with
the tag argument omitted into an empty cache inserts nothing, because
`update_cache` iterates only over tags already present in memory; the claim
requires the pair `("Q1", "a")` to be inserted.  (In the earlier src/cache.py
revision the claim also fails: the top-level `dict.update` replaces the tag's
whole sub-mapping, so the untouched key `"Q2"` of the spec's own example is
lost.) -/
theorem c1_counterexample :
    update_cache_noTag ([] : CacheState String)
        [("entity_info", [("Q1", "a")])] = [] ∧
    dget2 (update_cache_noTag ([] : CacheState String)
        [("entity_info", [("Q1", "a")])]) "entity_info" "Q1" = none ∧
    dget2 (update_cache_v0 [("entity_info", [("Q1", "old"), ("Q2", "b")])]
        [("entity_info", [("Q1", "a")])]) "entity_info" "Q2" = none := by
  decide

/-- C1 (amended): `update_cache` with the tag argument omitted merges the
input tag-by-tag over the tags already present in the cache: for such a tag,
the value at a key is the incoming one when the input binds it (incoming
wins, last binding of a key in the input prevailing) and the pre-existing
one otherwise; tags appearing only in the input are ignored.  The spec's
concrete example, whose tag pre-exists, behaves as stated: merging
`{"entity_info": {"Q1": "a"}}` into `{"entity_info": {"Q1": "old",
"Q2": "b"}}` yields `{"Q1": "a", "Q2": "b"}`. -/
theorem c1_update_cache_merge :
    (∀ (c incoming : CacheState String) (t k : String),
        dget2 (update_cache_noTag c incoming) t k
          = match dget c t with
            | none => none
            | some m =>
                oget (dget ((dget incoming t).getD []).reverse k) (dget m k)) ∧
    update_cache_noTag [("entity_info", [("Q1", "old"), ("Q2", "b")])]
        [("entity_info", [("Q1", "a")])]
      = [("entity_info", [("Q1", "a"), ("Q2", "b")])] := by
  constructor
  · intro c incoming t k
    simp only [dget2, dget_update_noTag]
    cases h : dget c t with
    | none => simp
    | some m => simp [dget_dupdate]
  · decide

/-- C2 counterexample: the underlying operation returns Python `None`; the
first memoized call invokes it and returns `None` (so the method "has been
called and has returned a value"), yet the second identical call invokes the
operation again — the call counter reaches 2. -/
theorem c2_counterexample :
    (decorated_method "t" "k" (none : Option String)
        (MemoState.mk [] 0)).1 = none ∧
    (decorated_method "t" "k" (none : Option String)
        ((decorated_method "t" "k" (none : Option String)
            (MemoState.mk [] 0)).2)).2.calls = 2 := by
  decide

/-- C2 (amended): once a memoized call has returned a non-`None` value for
some key, every later call with the same key returns that cached value
without invoking the underlying operation again (the invocation counter does
not move), whatever the later operation would return. -/
theorem c2_memoization_nonNone :
    ∀ (tag key : String) (op op2 : Option String) (s : MemoState String)
      (v : String),
      (decorated_method tag key op s).1 = some v →
      (decorated_method tag key op2
          (decorated_method tag key op s).2).1 = some v ∧
      (decorated_method tag key op2
          (decorated_method tag key op s).2).2.calls
        = ((decorated_method tag key op s).2).calls := by
  intro tag key op op2 s v h
  have hst := dm_stores tag key op s
  rw [h] at hst
  have h2 : (cache_get (decorated_method tag key op s).2.cache tag
      key).1.getD none = some v := by rw [hst]; rfl
  rw [dm_hit tag key op2 ((decorated_method tag key op s).2) v h2]
  exact ⟨rfl, rfl⟩

/-- C2 witness: a first call whose operation returns `"x"` caches it; the
second call returns `"x"` although its operation would return `"y"`, and the
counter is unchanged. -/
theorem c2_memoization_witness :
    (decorated_method "t" "k" (some "y")
        ((decorated_method "t" "k" (some "x")
            (MemoState.mk [] 0)).2)).1 = some "x" ∧
    (decorated_method "t" "k" (some "y")
        ((decorated_method "t" "k" (some "x")
            (MemoState.mk [] 0)).2)).2.calls
      = ((decorated_method "t" "k" (some "x") (MemoState.mk [] 0)).2).calls :=
  c2_memoization_nonNone "t" "k" (some "x") (some "y") (MemoState.mk [] 0) "x"
    (by decide)

/-- C3: saving the cache `{"entity_info": {"Q1": "a"}}` writes exactly that
structure, but loading it into a freshly constructed empty store via the
no-tag `update_cache` reproduces nothing: the fresh store has no tags, the
merge loop visits no tag, and the loaded store stays empty — the saved entry
`("entity_info", "Q1") -> "a"` is not reproduced. -/
theorem c3_roundtrip_bug :
    (get_caches [("entity_info", [("Q1", "a")])] TagsArg.noneArg).1
      = [("entity_info", [("Q1", "a")])] ∧
    update_cache_noTag ([] : CacheState String)
        [("entity_info", [("Q1", "a")])] = [] ∧
    dget2 (update_cache_noTag ([] : CacheState String)
        [("entity_info", [("Q1", "a")])]) "entity_info" "Q1" = none := by
  decide

/-- C4 counterexample: a process whose in-memory cache is empty runs
`sync_with_file` against a file holding `{"t": {"k": "v"}}`; the entry was
present at lock acquisition and this process never wrote that key, yet the
file written back is empty — the entry does not survive. -/
theorem c4_counterexample :
    dget2 ((sync_with_file ([] : CacheState String)
        [("t", [("k", "v")])]).2) "t" "k" = none ∧
    (sync_with_file ([] : CacheState String) [("t", [("k", "v")])]).2 = [] := by
  decide

/-- C4 (amended): `sync_with_file` performs, under the file lock,
load-from-file (merge into memory) followed by save-to-file: the memory
afterwards is the merged state and the file written is an extensional copy
of it.  A `(tag, key, value)` entry present in the file at lock acquisition
survives exactly when the tag is present in this process's in-memory cache —
and then it survives with the file's value, which the merge lets win over
this process's in-memory value; entries under tags absent from memory are
dropped from the file. -/
theorem c4_sync :
    ∀ (mem file : CacheState String),
      (sync_with_file mem file).1 = update_cache_noTag mem file ∧
      (∀ t k, dget2 (sync_with_file mem file).2 t k
          = dget2 (update_cache_noTag mem file) t k) ∧
      (∀ (t : String) (m fm : List (String × String)) (k v : String),
          dget mem t = some m → dget file t = some fm →
          dget fm.reverse k = some v →
          dget2 (sync_with_file mem file).2 t k = some v) := by
  intro mem file
  have hn := get_caches_none_spec (update_cache_noTag mem file)
  have hpt : ∀ u j, dget2 (sync_with_file mem file).2 u j
      = dget2 (update_cache_noTag mem file) u j := by
    intro u j
    simp only [sync_with_file, dget2, hn.2 u]
  refine ⟨hn.1, hpt, ?_⟩
  intro t m fm k v hmem hfile hrev
  rw [hpt t k]
  simp only [dget2]
  rw [dget_update_noTag, hmem]
  simp only [Option.map_some', hfile, Option.getD_some]
  rw [dget_dupdate, hrev]
  rfl

/-- C4 witness: with the tag `"t"` present in memory (empty sub-mapping) and
the file holding `{"t": {"k": "v"}}`, the entry survives synchronization
with the file's value. -/
theorem c4_sync_witness :
    dget2 ((sync_with_file [("t", ([] : List (String × String)))]
        [("t", [("k", "v")])]).2) "t" "k" = some "v" :=
  (c4_sync [("t", [])] [("t", [("k", "v")])]).2.2 "t" [] [("k", "v")] "k" "v"
    (by decide) (by decide) (by decide)

/-- C5: the category-resolution walk on the subclass cycle
Qa --subclass_of--> Qb --subclass_of--> Qa, with a terminal set disjoint
from the cycle, never terminates: there is no iteration bound within which
the while loop finishes, so the code loops forever instead of returning
`None` as the claim states. -/
theorem c5_cycle_nontermination : ¬ cycTerminates := by
  rintro ⟨n, hn⟩
  rw [(cyc_stuck n).1] at hn
  simp at hn

/-- C6: the walk returns `None` when the frontier empties; a frontier head
belonging to the terminal set is returned without dequeuing; a non-terminal
head is dequeued and its subclass-of targets are appended at the tail
(FIFO); and on the chain Q1 --instance_of--> Q2, Q2 --subclass_of--> Q3,
Q3 --subclass_of--> Q5 with Q5 terminal, resolving Q1 against {Q5} returns
Q5. -/
theorem c6_terminal_walk :
    (∀ (props : String → String → List String) (cand : List String) (n : Nat),
        get_super_class_from props cand n [] = some none) ∧
    (∀ (props : String → String → List String) (cand : List String) (n : Nat)
        (q : String) (rest : List String), q ∈ cand →
        get_super_class_from props cand (n + 1) (q :: rest) = some (some q)) ∧
    (∀ (props : String → String → List String) (cand : List String) (n : Nat)
        (q : String) (rest : List String), q ∉ cand →
        get_super_class_from props cand (n + 1) (q :: rest)
          = get_super_class_from props cand n (rest ++ props q SUBCLASS_OF)) ∧
    get_entity_category chainProps ["Q5"] 10 "Q1" = some (some "Q5") := by
  refine ⟨?_, ?_, ?_, ?_⟩
  · intro props cand n
    cases n <;> rfl
  · intro props cand n q rest h
    simp [get_super_class_from, h]
  · intro props cand n q rest h
    simp [get_super_class_from, h]
  · decide

/-- C6 witness: a terminal head is returned immediately; a non-terminal head
steps to the frontier extended with its subclass-of targets. -/
theorem c6_terminal_walk_witness :
    get_super_class_from chainProps ["Q5"] 1 ["Q5"] = some (some "Q5") ∧
    get_super_class_from chainProps ["Q5"] 1 ["Q2"]
      = get_super_class_from chainProps ["Q5"] 0
          ([] ++ chainProps "Q2" SUBCLASS_OF) :=
  ⟨c6_terminal_walk.2.1 chainProps ["Q5"] 0 "Q5" [] (by decide),
   c6_terminal_walk.2.2.1 chainProps ["Q5"] 0 "Q2" [] (by decide)⟩

/-- C7 counterexample: a call with zero positional arguments and the single
keyword argument `lang="en"` makes the combined tuple a 1-tuple, so the key
is the string form of the `("lang", "en")` item itself, not the string form
of the full ordered argument tuple `(("lang", "en"),)` the claim
prescribes. -/
theorem c7_counterexample :
    compute_key [PyArg.pair "lang" "en"] = "('lang', 'en')" ∧
    pyTupleStr [PyArg.pair "lang" "en"] = "(('lang', 'en'),)" ∧
    compute_key [PyArg.pair "lang" "en"]
      ≠ pyTupleStr [PyArg.pair "lang" "en"] := by
  decide

/-- C7 (amended): the default key is computed from the combined tuple of
positional arguments followed by keyword items; when that combined tuple has
exactly one element the key is that element's string form (so a call with
one positional argument and no keywords uses the argument's string form, but
a call with no positionals and exactly one keyword argument uses the string
form of its `(name, value)` item), and otherwise the key is the string form
of the combined tuple.  In particular the single argument `"Q42"` yields the
key `"Q42"`, and `("Q42", "en")` yields the different key
`"('Q42', 'en')"`. -/
theorem c7_default_key :
    (∀ a : PyArg, compute_key [a] = pyArgStr a) ∧
    (∀ l : List PyArg, l.length ≠ 1 → compute_key l = pyTupleStr l) ∧
    compute_key [PyArg.str "Q42"] = "Q42" ∧
    compute_key [PyArg.str "Q42", PyArg.str "en"] = "('Q42', 'en')" ∧
    compute_key [PyArg.str "Q42", PyArg.str "en"]
      ≠ compute_key [PyArg.str "Q42"] ∧
    compute_key [PyArg.pair "lang" "en"] = pyArgStr (PyArg.pair "lang" "en") := by
  refine ⟨?_, ?_, by decide, by decide, by decide, by decide⟩
  · intro a; rfl
  · intro l h
    cases l with
    | nil => rfl
    | cons a t =>
        cases t with
        | nil => exact absurd rfl h
        | cons b t2 => rfl

/-- C7 witness: the empty call keys on the string form of the empty tuple,
and a one-positional call keys on the argument's own string form. -/
theorem c7_default_key_witness :
    compute_key ([] : List PyArg) = pyTupleStr [] ∧
    compute_key [PyArg.str "Q42"] = pyArgStr (PyArg.str "Q42") :=
  ⟨c7_default_key.2.1 [] (by decide), c7_default_key.1 (PyArg.str "Q42")⟩

/-- C8 counterexample: reading the missing tag `"t"` through `_cache_get` on
an empty cache returns `None` but auto-creates the tag in the defaultdict:
the state changes from `{}` to `{"t": {}}`, observably — `get_summary` of
the state afterwards reports the new tag. -/
theorem c8_counterexample :
    (cache_get ([] : CacheState String) "t" "k").1 = none ∧
    (cache_get ([] : CacheState String) "t" "k").2 = [("t", [])] ∧
    (cache_get ([] : CacheState String) "t" "k").2 ≠ [] ∧
    get_summary ((cache_get ([] : CacheState String) "t" "k").2)
      = [("t", 0)] ∧
    get_summary ([] : CacheState String) = [] := by
  decide

/-- C8 (amended): `_cache_get` returns the value a pure lookup would return,
with an absent tag read as an empty sub-mapping, and it never changes any
stored `(tag, key)` binding; but it is not free of side effects: reading a
missing tag auto-creates that tag with an empty sub-mapping (defaultdict
semantics), so auto-creation is not limited to write operations.  The
snapshot `get_caches` with the default `None` tags argument leaves the state
unchanged. -/
theorem c8_read_effect :
    ∀ (c : CacheState String) (t k : String),
      (cache_get c t k).1 = dget2 c t k ∧
      (∀ u j, dget2 (cache_get c t k).2 u j = dget2 c u j) ∧
      ((cache_get c t k).2
        = match dget c t with
          | some _ => c
          | none => c ++ [(t, [])]) ∧
      (get_caches c TagsArg.noneArg).2 = c := by
  intro c t k
  refine ⟨?_, ?_, ?_, (get_caches_none_spec c).1⟩
  · rw [show (cache_get c t k).1 = dget (ddAccess c t []).1 k from rfl,
        ddAccess_fst]
    cases h : dget c t with
    | none => simp [dget2, h, dget]
    | some m => simp [dget2, h]
  · intro u j
    rw [show (cache_get c t k).2 = (ddAccess c t []).2 from rfl]
    cases h : dget c t with
    | some m => rw [ddAccess_of_some c t [] m h]
    | none =>
        rw [ddAccess_of_none c t [] h]
        simp only [dget2, dget_append]
        cases hu : dget c u with
        | some m => simp [oget]
        | none =>
            by_cases htu : t = u <;> simp [oget, dget, htu]
  · rw [show (cache_get c t k).2 = (ddAccess c t []).2 from rfl]
    cases h : dget c t with
    | some m => simp [ddAccess_of_some c t [] m h, h]
    | none => simp [ddAccess_of_none c t [] h, h]

/-- C9: constructing a store on a path that does not exist immediately
writes `get_caches(tag)` of the freshly created empty cache; whatever the
optional tag argument is (`None`, a string — iterated character-wise by the
`tags` parameter it is passed to — or a collection), every sub-mapping of
the written structure is empty, i.e. the serialized structure contains no
entries. -/
theorem c9_construction_empty_write :
    ∀ targ : TagsArg,
      ((construction_write (ν := String) targ).all
        fun p => p.2.isEmpty) = true := by
  intro targ
  have h := get_caches_go_allEmpty (ν := String)
      (resolveTags ([] : CacheState String) targ)
      ([] : CacheState String) ([] : CacheState String)
      (by intro p hp; simp at hp) (by intro p hp; simp at hp)
  rw [List.all_eq_true]
  intro p hp
  have h2 := h p hp
  simp [h2]

/-- C10: a memoized call whose operation returned Python `None` stores
`None`, which `_cache_get` cannot distinguish from a missing key: whenever a
call with an always-`None` operation returns `None`, the next identical call
invokes the operation again (counter increments) and returns `None` again. -/
theorem c10_none_refetch :
    ∀ (tag key : String) (s : MemoState String),
      (decorated_method tag key (none : Option String) s).1 = none →
      (decorated_method tag key (none : Option String)
          ((decorated_method tag key (none : Option String) s).2)).1 = none ∧
      (decorated_method tag key (none : Option String)
          ((decorated_method tag key (none : Option String) s).2)).2.calls
        = ((decorated_method tag key (none : Option String) s).2).calls + 1 := by
  intro tag key s h
  have hst := dm_stores tag key (none : Option String) s
  rw [h] at hst
  have h2 : (cache_get (decorated_method tag key (none : Option String)
      s).2.cache tag key).1.getD none = none := by rw [hst]; rfl
  rw [dm_miss tag key (none : Option String) _ h2]
  exact ⟨rfl, rfl⟩

/-- C10 witness: starting from the empty cache, the first `None`-returning
call is followed by a second call that fetches again. -/
theorem c10_none_refetch_witness :
    (decorated_method "t" "k" (none : Option String)
        ((decorated_method "t" "k" (none : Option String)
            (MemoState.mk [] 0)).2)).1 = none ∧
    (decorated_method "t" "k" (none : Option String)
        ((decorated_method "t" "k" (none : Option String)
            (MemoState.mk [] 0)).2)).2.calls
      = ((decorated_method "t" "k" (none : Option String)
            (MemoState.mk [] 0)).2).calls + 1 :=
  c10_none_refetch "t" "k" (MemoState.mk [] 0) (by decide)

end WikiUtils
